import Mathlib

/-!
Verification of the random-chat backend's matching, session and filtering
logic, shallowly embedded from the JavaScript source.

Conventions of the embedding:
* JS `Map` objects become association lists `List (Nat × α)` in insertion
  order; `Map.set` updates in place for an existing key and appends for a
  fresh one, `Map.delete` filters the key out, and iteration follows the
  list order, exactly as JS `Map` iteration follows insertion order.
* Socket ids and chat ids are modelled as `Nat`.
* JS strings are `List Char`; `null`/`undefined` fields are `Option`s.
* Gender tags and preference values are closed enumerations, matching the
  validated values `male`/`female`(/`any`) the handlers accept.
-/

set_option maxHeartbeats 1000000
set_option maxRecDepth 100000

namespace RandomChat

/-! ## Basic data (src/storage/memoryStorage.js, src/models/User.js) -/

inductive Gender where
  | male
  | female
deriving DecidableEq, Repr, Fintype

inductive PrefG where
  | male
  | female
  | anyG
deriving DecidableEq, Repr, Fintype

/-- A user's `preferences` object; the `preferredGender` key may be absent
(`none`), which the matcher treats as `'any'`. -/
structure Prefs where
  preferredGender : Option PrefG
deriving DecidableEq, Repr

/-- A `userProfiles` record, as initialised and updated by memoryStorage. -/
structure ProfileR where
  name : Option (List Char)
  gender : Option Gender
  avatar : Option (List Char)
  isProfileComplete : Bool
deriving DecidableEq, Repr

/-- A `users` record (the fields relevant to matching and sessions). -/
structure UserR where
  isInChat : Bool
  isInGroup : Bool
  preferences : Prefs
deriving DecidableEq, Repr

/-! ## Association-list maps mirroring JS `Map` -/

def lookupA {α : Type} (l : List (Nat × α)) (k : Nat) : Option α :=
  (l.find? (fun e => e.1 == k)).map (·.2)

/-- `Map.set`: update in place if the key exists, else append. -/
def setA {α : Type} (l : List (Nat × α)) (k : Nat) (v : α) : List (Nat × α) :=
  if (l.find? (fun e => e.1 == k)).isSome then
    l.map (fun e => if e.1 == k then (k, v) else e)
  else
    l ++ [(k, v)]

/-- `Map.delete`. -/
def delA {α : Type} (l : List (Nat × α)) (k : Nat) : List (Nat × α) :=
  l.filter (fun e => !(e.1 == k))

/-! ## Server state shared by the socket handler and services

The module-level maps of `src/storage/memoryStorage.js`:
`users`, `userProfiles`, `waitingUsers`, `activeChats`, `chatRooms`.
`nextChatId` models the chat-id generator. -/

structure SState where
  users : List (Nat × UserR)
  userProfiles : List (Nat × ProfileR)
  waitingUsers : List (Nat × Prefs)
  activeChats : List (Nat × (Nat × Nat))
  chatRooms : List (Nat × Nat)
  nextChatId : Nat
deriving DecidableEq, Repr

/-! ## MatchingService (src/services/matchingService.js) -/

/-- `userPrefGender === partnerGender`: a preference string compared with a
gender string; `'any'` never equals a concrete gender. -/
def prefEqGender (p : PrefG) (g : Option Gender) : Bool :=
  match p, g with
  | .male, some .male => true
  | .female, some .female => true
  | _, _ => false

/-- The body of `MatchingService.isGenderCompatible` after it has read the
two gender tags and normalised the two preference values (`|| 'any'`). -/
def compatCore (userGender partnerGender : Option Gender)
    (userPrefGender partnerPrefGender : PrefG) : Bool :=
  if userPrefGender == .anyG || partnerPrefGender == .anyG then
    true
  else if userGender.isNone || partnerGender.isNone then
    true
  else
    let userSatisfied := userPrefGender == .anyG || prefEqGender userPrefGender partnerGender
    let partnerSatisfied := partnerPrefGender == .anyG || prefEqGender partnerPrefGender userGender
    userSatisfied && partnerSatisfied

/-- `MatchingService.isGenderCompatible(userProfile, userPrefs,
partnerProfile, partnerPrefs)`; the profile arguments may be `undefined`
(`none`) because they come from `userProfiles.get`. -/
def isGenderCompatible (userProfile : Option ProfileR) (userPrefs : Prefs)
    (partnerProfile : Option ProfileR) (partnerPrefs : Prefs) : Bool :=
  compatCore (userProfile.bind (·.gender)) (partnerProfile.bind (·.gender))
    (userPrefs.preferredGender.getD .anyG) (partnerPrefs.preferredGender.getD .anyG)

/-- The body of the `for (const [waitingUserId, waitingData] of waitingUsers)`
loop of `MatchingService.findCompatiblePartner`: skip the requester, skip
entries whose user record is gone, return the first compatible id. -/
def fcpLoop (st : SState) (userId : Nat) (userProfile : Option ProfileR)
    (userPreferences : Prefs) : List (Nat × Prefs) → Option Nat
  | [] => none
  | (waitingUserId, _) :: rest =>
    if waitingUserId == userId then
      fcpLoop st userId userProfile userPreferences rest
    else
      match lookupA st.users waitingUserId with
      | none => fcpLoop st userId userProfile userPreferences rest
      | some waitingUser =>
        if isGenderCompatible userProfile userPreferences
            (lookupA st.userProfiles waitingUserId) waitingUser.preferences then
          some waitingUserId
        else
          fcpLoop st userId userProfile userPreferences rest

/-- `MatchingService.findCompatiblePartner(userId)`. -/
def findCompatiblePartner (st : SState) (userId : Nat) : Option Nat :=
  match lookupA st.users userId with
  | none => none
  | some user =>
    fcpLoop st userId (lookupA st.userProfiles userId) user.preferences st.waitingUsers

/-- `MatchingService.addToWaitingList(socketId, preferences)`. -/
def addToWaitingList (st : SState) (socketId : Nat) (preferences : Prefs) : SState :=
  { st with waitingUsers := setA st.waitingUsers socketId preferences }

/-- `MatchingService.removeFromWaitingList(socketId)`. -/
def removeFromWaitingList (st : SState) (socketId : Nat) : SState :=
  { st with waitingUsers := delA st.waitingUsers socketId }

/-! ## ChatService.startChat (src/services/chatService.js) -/

/-- `ChatService.startChat(user1Id, user2Id)`: mark both users in-chat,
record the chat and the room mapping.  The `throw` on a missing user is
modelled by leaving the state unchanged; in the `handleStartChat` flow both
users are known to exist. -/
def startChatSvc (st : SState) (user1Id user2Id : Nat) : SState :=
  match lookupA st.users user1Id, lookupA st.users user2Id with
  | some user1, some user2 =>
    { st with
      users := setA (setA st.users user1Id { user1 with isInChat := true })
                 user2Id { user2 with isInChat := true }
      activeChats := setA st.activeChats st.nextChatId (user1Id, user2Id)
      chatRooms := setA (setA st.chatRooms user1Id st.nextChatId) user2Id st.nextChatId
      nextChatId := st.nextChatId + 1 }
  | _, _ => st

/-! ## SocketHandler.handleStartChat (src/handlers/socketHandler.js) -/

inductive StartChatOutcome where
  | errorAlready
  | matched (partnerId : Nat)
  | waitingAck
deriving DecidableEq, Repr

/-- `SocketHandler.handleStartChat(socket)`: reject when the user is unknown
or `user.isInChat`; otherwise match with a compatible waiting partner
(removing them from the queue) or join the waiting list. -/
def handleStartChat (st : SState) (id : Nat) : StartChatOutcome × SState :=
  match lookupA st.users id with
  | none => (.errorAlready, st)
  | some user =>
    if user.isInChat then
      (.errorAlready, st)
    else
      match findCompatiblePartner st id with
      | some partner =>
        (.matched partner, startChatSvc (removeFromWaitingList st partner) id partner)
      | none =>
        (.waitingAck, addToWaitingList st id user.preferences)

/-! ## memoryStorage profile / preference updates (src/unnamed/part_008)

A JS partial-update object distinguishes an absent (or `undefined`) key from
a key present with a value (possibly `null`).  `none` models the absent key;
`some v` a present key with value `v`. -/

structure ProfilePatch where
  name : Option (Option (List Char))
  gender : Option (Option Gender)
  avatar : Option (Option (List Char))
deriving DecidableEq, Repr

structure PrefsPatch where
  preferredGender : Option (Option PrefG)
deriving DecidableEq, Repr

/-- `updateUserProfile(socketId, profileData)`: rebuild the stored profile,
taking each of `name`, `gender`, `avatar` from the patch when the key is
present (`!== undefined`) and from the current profile otherwise, and setting
`isProfileComplete` to `true`.  Returns `false` (here `none`) for an unknown
id. -/
def updateUserProfile (st : SState) (socketId : Nat) (profileData : ProfilePatch) :
    Option ProfileR × SState :=
  match lookupA st.userProfiles socketId with
  | none => (none, st)
  | some currentProfile =>
    let updatedProfile : ProfileR :=
      { name := profileData.name.getD currentProfile.name
        gender := profileData.gender.getD currentProfile.gender
        avatar := profileData.avatar.getD currentProfile.avatar
        isProfileComplete := true }
    (some updatedProfile,
      { st with userProfiles := setA st.userProfiles socketId updatedProfile })

/-- `updateUserPreferences(socketId, preferences)`: JS object spread
`{...user.preferences, ...preferences}` — every key present in the patch
overrides, every absent key keeps its stored value. -/
def updateUserPreferences (st : SState) (socketId : Nat) (preferences : PrefsPatch) :
    Option Prefs × SState :=
  match lookupA st.users socketId with
  | none => (none, st)
  | some user =>
    let newPrefs : Prefs :=
      ⟨preferences.preferredGender.getD user.preferences.preferredGender⟩
    (some newPrefs,
      { st with users := setA st.users socketId { user with preferences := newPrefs } })

/-! ## Group chat (src/models/GroupChat.js, GroupChatController,
GroupChatRepository)

The controller stack keeps `User` entities (with `isInChat` / `isInGroup`
flags) in a `UserRepository` and `GroupChat` instances in a
`GroupChatRepository`; both are id-keyed maps.  `nextGroupId` models the
group-id generator. -/

structure GUser where
  isInChat : Bool
  isInGroup : Bool
deriving DecidableEq, Repr

/-- A `GroupChat` instance: the `members` JS `Set` is a list without
duplicates in insertion order. -/
structure GGroup where
  members : List Nat
  maxMembers : Nat
  isActive : Bool
deriving DecidableEq, Repr

def GroupChat.hasSpace (g : GGroup) : Bool :=
  g.members.length < g.maxMembers

def GroupChat.hasMember (g : GGroup) (userId : Nat) : Bool :=
  g.members.contains userId

/-- `GroupChat.addMember(userId)`: `none` models a `false` return (full
group or already a member). -/
def GroupChat.addMember (g : GGroup) (userId : Nat) : Option GGroup :=
  if g.maxMembers ≤ g.members.length then
    none
  else if g.members.contains userId then
    none
  else
    some { g with members := g.members ++ [userId] }

/-- `GroupChat.removeMember(userId)`: `none` models a `false` return (not a
member); an emptied group is marked inactive. -/
def GroupChat.removeMember (g : GGroup) (userId : Nat) : Option GGroup :=
  if g.members.contains userId then
    let members' := g.members.filter (fun m => !(m == userId))
    some { g with
      members := members'
      isActive := if members'.length = 0 then false else g.isActive }
  else
    none

structure GState where
  users : List (Nat × GUser)
  groups : List (Nat × GGroup)
  nextGroupId : Nat
deriving DecidableEq, Repr

/-- `GroupChatRepository.findByMember(userId)`: first group (in map order)
containing the user. -/
def findByMember (st : GState) (userId : Nat) : Option (Nat × GGroup) :=
  st.groups.find? (fun e => GroupChat.hasMember e.2 userId)

/-- `GroupChatController.findAvailableGroup()`:
`findAll().find(group => group.isActive && group.hasSpace())`. -/
def findAvailableGroupC (st : GState) : Option (Nat × GGroup) :=
  st.groups.find? (fun e => e.2.isActive && GroupChat.hasSpace e.2)

/-- `UserController.setUserGroupStatus`: no-op for an unknown id. -/
def setUserGroupStatus (st : GState) (userId : Nat) (inGroup : Bool) : GState :=
  match lookupA st.users userId with
  | none => st
  | some u => { st with users := setA st.users userId { u with isInGroup := inGroup } }

inductive GroupResult where
  | ok (groupId : Nat)
  | errorRes
  | noopRes
deriving DecidableEq, Repr

/-- `GroupChatController.leaveGroupChat(userId)`: remove the user from their
group; save the group if members remain, delete it from the repository if it
became empty.  Not being in a group is a successful no-op. -/
def leaveGroupChat (st : GState) (userId : Nat) : GroupResult × GState :=
  match findByMember st userId with
  | none => (.noopRes, st)
  | some (gid, g) =>
    match GroupChat.removeMember g userId with
    | none => (.errorRes, st)
    | some g' =>
      let st1 := setUserGroupStatus st userId false
      if 0 < g'.members.length then
        (.ok gid, { st1 with groups := setA st1.groups gid g' })
      else
        (.ok gid, { st1 with groups := delA st1.groups gid })

/-- `GroupChatController.joinGroupChat(userId)`: reject while in a 1-on-1
chat; silently leave a current group first; join the first active group with
space, or create a new (capacity 6) group. -/
def joinGroupChat (st : GState) (userId : Nat) : GroupResult × GState :=
  match lookupA st.users userId with
  | none => (.errorRes, st)
  | some u =>
    if u.isInChat then
      (.errorRes, st)
    else
      let st1 := if u.isInGroup then (leaveGroupChat st userId).2 else st
      match findAvailableGroupC st1 with
      | some (gid, g) =>
        match GroupChat.addMember g userId with
        | none => (.errorRes, st1)
        | some g' =>
          let st2 := setUserGroupStatus st1 userId true
          (.ok gid, { st2 with groups := setA st2.groups gid g' })
      | none =>
        let gid := st1.nextGroupId
        let st2 := { st1 with
          groups := setA st1.groups gid ⟨[], 6, true⟩
          nextGroupId := gid + 1 }
        match GroupChat.addMember ⟨[], 6, true⟩ userId with
        | none => (.errorRes, st2)
        | some g' =>
          let st3 := setUserGroupStatus st2 userId true
          (.ok gid, { st3 with groups := setA st3.groups gid g' })

/-- External events driving the group subsystem: a connection
(`createUser`), a 1-on-1 chat status change, a `joinGroup` and a
`leaveGroup` request. -/
inductive GOp where
  | connect (uid : Nat)
  | setChat (uid : Nat) (b : Bool)
  | join (uid : Nat)
  | leave (uid : Nat)
deriving DecidableEq, Repr

def gstep (st : GState) : GOp → GState
  | .connect uid => { st with users := setA st.users uid ⟨false, false⟩ }
  | .setChat uid b =>
    match lookupA st.users uid with
    | none => st
    | some u => { st with users := setA st.users uid { u with isInChat := b } }
  | .join uid => (joinGroupChat st uid).2
  | .leave uid => (leaveGroupChat st uid).2

def ginit : GState := ⟨[], [], 0⟩

/-- A reachable state: the initial empty state driven by a list of events. -/
def runOps (ops : List GOp) : GState := ops.foldl gstep ginit

/-- Well-formedness of one stored group: capacity 6, member count within
capacity, nonempty, active, duplicate-free, id below the id counter. -/
def GroupWF (e : Nat × GGroup) (n : Nat) : Prop :=
  e.2.maxMembers = 6 ∧ e.2.members.length ≤ 6 ∧ e.2.members ≠ [] ∧
    e.2.isActive = true ∧ e.2.members.Nodup ∧ e.1 < n

/-- The group-store invariant, on the raw components. -/
def GInvP (groups : List (Nat × GGroup)) (n : Nat) : Prop :=
  (∀ e ∈ groups, GroupWF e n) ∧ (groups.map (·.1)).Nodup

/-- The group-store invariant. -/
def GInv (st : GState) : Prop :=
  GInvP st.groups st.nextGroupId

/-! ## Profanity filter (src/filters/profanityFilter.js)

JS strings are `List Char`.  A regex built by `createRegexPatterns` is, for a
dictionary word, the sequence of its letters where each letter carries its
leet-substitution character class, wrapped in `\b ... \b` word boundaries
(flags `gi`).  `handleBypassAttempts` builds, for the same word, the pattern
of its plain letters separated by `\s*`, also `\b`-wrapped with flags `gi`.
Both are modelled by `Pat`; `matchAt` is the (deterministic) match attempt
at one position, and `rgAuxF` is the left-to-right global replace. -/

/-- JS `\w` = `[A-Za-z0-9_]`. -/
def isWordChar (c : Char) : Bool :=
  c.isAlpha || c.isDigit || c == '_'

/-- JS `\s` (ECMAScript WhiteSpace and LineTerminator code points). -/
def isSpaceChar (c : Char) : Bool :=
  let n := c.toNat
  n == 0x20 || n == 0x9 || n == 0xa || n == 0xb || n == 0xc || n == 0xd ||
  n == 0xa0 || n == 0x1680 || (0x2000 ≤ n && n ≤ 0x200a) ||
  n == 0x2028 || n == 0x2029 || n == 0x202f || n == 0x205f || n == 0x3000 ||
  n == 0xfeff

/-- The character class a dictionary-word character expands to in
`createRegexPatterns` (leet substitutions). -/
def classChars : Char → List Char
  | 'a' => ['a', '@', '4']
  | 'e' => ['e', '3']
  | 'i' => ['i', '1', '!']
  | 'o' => ['o', '0']
  | 's' => ['s', '$', '5']
  | 't' => ['t', '7']
  | 'l' => ['l', '1']
  | c => [c]

/-- One input character against one leet class (case-insensitive `i` flag). -/
def classMatches (b c : Char) : Bool :=
  (classChars b).contains c.toLower

/-- One input character against one literal pattern letter (`i` flag). -/
def litMatches (b c : Char) : Bool :=
  c.toLower == b

inductive PatKind where
  | leet
  | spaced
deriving DecidableEq, Repr

structure Pat where
  word : List Char
  kind : PatKind
deriving DecidableEq, Repr

def elemMatch : PatKind → Char → Char → Bool
  | .leet, b, c => classMatches b c
  | .spaced, b, c => litMatches b c

def isWordOpt : Option Char → Bool
  | none => false
  | some c => isWordChar c

/-- JS `\b` between the previous character and `c` (string edges count as
non-word). -/
def bnd (prev : Option Char) (c : Char) : Bool :=
  isWordOpt prev != isWordChar c

def headIsWord : List Char → Bool
  | [] => false
  | c :: _ => isWordChar c

/-- JS `\b` after the last matched character `last`, against the rest of the
input. -/
def endBnd (last : Char) (rest : List Char) : Bool :=
  isWordChar last != headIsWord rest

/-- Greedy `\s*`: length of the leading whitespace run and the remainder. -/
def spanSpaces : List Char → Nat × List Char
  | [] => (0, [])
  | c :: cs =>
    if isSpaceChar c then
      let r := spanSpaces cs
      (r.1 + 1, r.2)
    else
      (0, c :: cs)

/-- Consume the remaining pattern letters (`\s*` before each letter for a
spaced pattern), then check the final `\b`.  Returns the number of input
characters consumed and the last consumed character. -/
def consumeRest (k : PatKind) : List Char → Char → List Char → Option (Nat × Char)
  | [], last, rest => if endBnd last rest then some (0, last) else none
  | b :: bs, _, rest =>
    let sp := if k = PatKind.spaced then spanSpaces rest else (0, rest)
    match sp.2 with
    | [] => none
    | c :: cs =>
      if elemMatch k b c then
        (consumeRest k bs c cs).map (fun r => (sp.1 + 1 + r.1, r.2))
      else
        none

/-- Attempt to match pattern `p` at the current position (with `prev` the
character just before it).  Returns the match length and last matched
character.  The patterns are deterministic: classes are single characters
and `\s*` is greedy with no backtracking (pattern letters are never
whitespace). -/
def matchAt (p : Pat) (prev : Option Char) (s : List Char) : Option (Nat × Char) :=
  match p.word, s with
  | b :: bs, c :: cs =>
    if bnd prev c && elemMatch p.kind b c then
      (consumeRest p.kind bs c cs).map (fun r => (1 + r.1, r.2))
    else
      none
  | _, _ => none

/-- The replacement: an asterisk run as long as the dictionary word. -/
def starsFor (p : Pat) : List Char :=
  List.replicate p.word.length '*'

/-- Left-to-right global replace (one regex), exactly as
`String.prototype.replace` with a `g` regex: try the position, on failure
emit one character and advance, on success emit the stars and continue after
the match.  Fuel-structural; `fuel ≥ s.length` always suffices. -/
def rgAuxF : Nat → Pat → Option Char → List Char → List Char
  | 0, _, _, s => s
  | _ + 1, _, _, [] => []
  | fuel + 1, p, prev, c :: cs =>
    match matchAt p prev (c :: cs) with
    | some r => starsFor p ++ rgAuxF fuel p (some r.2) (List.drop (r.1 - 1) cs)
    | none => c :: rgAuxF fuel p (some c) cs

/-- `message.replace(pattern, stars)` for one pattern. -/
def rg (p : Pat) (s : List Char) : List Char :=
  rgAuxF s.length p none s

def englishBadWords : List String :=
  ["fuck", "shit", "bitch", "damn", "ass", "asshole", "bastard", "crap", "piss",
   "dick", "cock", "pussy", "whore", "slut", "faggot", "nigger", "retard",
   "motherfucker", "cocksucker", "douchebag", "jackass", "prick", "twat",
   "cunt", "bollocks", "bugger", "bloody", "wanker", "tosser", "git",
   "moron", "idiot", "stupid", "dumb", "loser", "freak", "pervert",
   "sex", "porn", "nude", "naked", "boobs", "tits", "penis", "vagina"]

def hindiBadWords : List String :=
  ["madarchod", "bhenchod", "bhosdike", "chutiya", "gandu", "randi",
   "saala", "saali", "kamina", "kutta", "kutti", "harami", "badmaash",
   "chodu", "lodu", "bhosda", "gaandu", "rand", "raand", "chinaal",
   "hijra", "chakka", "behen", "maa", "baap", "teri", "meri",
   "chut", "lund", "lawda", "lawde", "bur", "bhosadi", "madarchod",
   "behenchod", "sisterfucker", "motherfucker", "bhosdiwala", "chutiyapa",
   "gand", "gaand", "tatti", "haggu", "mut", "peshaab", "potty"]

def allBadWords : List String :=
  englishBadWords ++ hindiBadWords

/-- `this.patterns` (leet patterns, in word order). -/
def mainPats : List Pat :=
  allBadWords.map (fun w => ⟨w.toList, .leet⟩)

/-- The spaced-letter patterns of `handleBypassAttempts`, in word order. -/
def spacedPats : List Pat :=
  allBadWords.map (fun w => ⟨w.toList, .spaced⟩)

/-- Apply a list of global replaces in order. -/
def runPats (ps : List Pat) (s : List Char) : List Char :=
  ps.foldl (fun acc p => rg p acc) s

def handleBypassAttempts (s : List Char) : List Char :=
  runPats spacedPats s

/-- `ProfanityFilter.filterMessage` on a non-empty string: every leet
pattern's global replace in order, then the bypass (spaced) patterns. -/
def filterMessage (s : List Char) : List Char :=
  handleBypassAttempts (runPats mainPats s)

/-! ### The JS-value wrapper (guard clauses of filterMessage and
containsProfanity) -/

inductive JsVal where
  | str (s : List Char)
  | nullV
  | undefV
  | numV (n : Int)
  | boolV (b : Bool)
deriving DecidableEq, Repr

/-- `message` is truthy and of type string: `!(!message || typeof message
!== 'string')`. -/
def isNonEmptyString : JsVal → Bool
  | .str s => !s.isEmpty
  | _ => false

/-- `filterMessage` including its guard: non-strings and the empty string
are returned unchanged. -/
def filterMessageJ : JsVal → JsVal
  | .str s => if s.isEmpty then .str s else .str (filterMessage s)
  | v => v

/-! ### Stateful `containsProfanity` (`g`-flag `RegExp.prototype.test`)

Each pattern object carries a persistent `lastIndex`.  `test` searches from
`lastIndex`; on success it sets `lastIndex` to the match end and returns
`true`, on failure it resets `lastIndex` to `0` and returns `false`; a
`lastIndex` beyond the string fails immediately. -/

def testFrom (p : Pat) : Option Char → List Char → Nat → Option Nat
  | _, [], _ => none
  | prev, c :: cs, pos =>
    match matchAt p prev (c :: cs) with
    | some r => some (pos + r.1)
    | none => testFrom p (some c) cs (pos + 1)

def prevCharAt (s : List Char) (i : Nat) : Option Char :=
  if i = 0 then none else (s.drop (i - 1)).head?

def jsTest (p : Pat) (s : List Char) (lastIndex : Nat) : Bool × Nat :=
  if s.length < lastIndex then
    (false, 0)
  else
    match testFrom p (prevCharAt s lastIndex) (s.drop lastIndex) lastIndex with
    | some e => (true, e)
    | none => (false, 0)

/-- `this.patterns.some(pattern => pattern.test(message))`: short-circuiting
`some`, threading each pattern's `lastIndex`. -/
def someTest : List (Pat × Nat) → List Char → Bool × List Nat
  | [], _ => (false, [])
  | (p, li) :: rest, s =>
    let r := jsTest p s li
    if r.1 then
      (true, r.2 :: rest.map (·.2))
    else
      let r2 := someTest rest s
      (r2.1, r.2 :: r2.2)

/-- `ProfanityFilter.containsProfanity`, with the filter instance's mutable
regex state (`lastIndex` per pattern of `this.patterns`) made explicit. -/
def containsProfanityS (st : List Nat) (v : JsVal) : Bool × List Nat :=
  match v with
  | .str s => if s.isEmpty then (false, st) else someTest (mainPats.zip st) s
  | _ => (false, st)

/-- A freshly constructed `ProfanityFilter`: every `lastIndex` is `0`. -/
def initFilterState : List Nat :=
  List.replicate mainPats.length 0

/-! ### Auxiliary notions for the idempotence proof -/

/-- Does pattern `p` match anywhere in `s`, scanning with `prev` the
character before the first position?  (The per-position view of a regex
search.) -/
def hasMatchAux (p : Pat) : Option Char → List Char → Bool
  | _, [] => false
  | prev, c :: cs => (matchAt p prev (c :: cs)).isSome || hasMatchAux p (some c) cs

/-- An ASCII lowercase letter. -/
def isLowerAscii (c : Char) : Bool :=
  97 ≤ c.toNat && c.toNat ≤ 122

/-- Every dictionary word is a non-empty string of lowercase ASCII
letters. -/
def goodWord (w : List Char) : Bool :=
  !w.isEmpty && w.all isLowerAscii

def goodPat (p : Pat) : Bool :=
  goodWord p.word

/-- The character preceding the input once a leading whitespace run has been
skipped. -/
def spacesPrev : Option Char → List Char → Option Char
  | prev, [] => prev
  | prev, c :: cs => if isSpaceChar c then spacesPrev (some c) cs else prev

/-- Relation between the scanning context `rq` of a fresh search over the
replace output and the scanning context `rs` the replace itself used at the
same position: either they are the same character, or the search sits right
after an inserted asterisk run and the boundary it sees implies the one the
original text had. -/
def BndOk (rq rs : Option Char) (s : List Char) : Prop :=
  rq = rs ∨ ∀ d ds, s = d :: ds → bnd rq d = true → bnd rs d = true

/-! ## Specification-side view of the queue scan (for claim C5)

`compatWith st id up upr wid` is the predicate the waiting-queue scan applies
to an entry `wid`: the entry's user record must still exist and
`isGenderCompatible` must hold against the requester's data. -/

def compatWith (st : SState) (_userId : Nat) (userProfile : Option ProfileR)
    (userPreferences : Prefs) (wid : Nat) : Bool :=
  match lookupA st.users wid with
  | none => false
  | some waitingUser =>
    isGenderCompatible userProfile userPreferences
      (lookupA st.userProfiles wid) waitingUser.preferences

/-! ## Concrete states used as counterexamples and witnesses -/

def prefsAny : Prefs := ⟨some .anyG⟩

def prefsMale : Prefs := ⟨some .male⟩

def profileNone : ProfileR := ⟨none, none, none, false⟩

def profileMaleP : ProfileR := ⟨none, some .male, none, true⟩

/-- Participant 1 is `waiting` (in the queue, not in chat, not in a group). -/
def c1StateWaiting : SState :=
  { users := [(1, ⟨false, false, prefsAny⟩)]
    userProfiles := [(1, profileNone)]
    waitingUsers := [(1, prefsAny)]
    activeChats := []
    chatRooms := []
    nextChatId := 0 }

/-- Participant 2 is `grouped` (`isInGroup = true`, not in chat, not waiting). -/
def c1StateGrouped : SState :=
  { users := [(2, ⟨false, true, prefsAny⟩)]
    userProfiles := [(2, profileNone)]
    waitingUsers := []
    activeChats := []
    chatRooms := []
    nextChatId := 0 }

/-- Participant 3 is `paired` (`isInChat = true`). -/
def c1StatePaired : SState :=
  { users := [(3, ⟨true, false, prefsAny⟩)]
    userProfiles := [(3, profileNone)]
    waitingUsers := []
    activeChats := [(0, (3, 4))]
    chatRooms := [(3, 0)]
    nextChatId := 1 }

/-- Two participants, both `gender = male` and `preferredGender = male`. -/
def c2State : SState :=
  { users := [(1, ⟨false, false, prefsMale⟩), (2, ⟨false, false, prefsMale⟩)]
    userProfiles := [(1, profileMaleP), (2, profileMaleP)]
    waitingUsers := []
    activeChats := []
    chatRooms := []
    nextChatId := 0 }

/-- Fresh participant 1 with an untouched (incomplete) profile. -/
def c9State : SState :=
  { users := [(1, ⟨false, false, prefsAny⟩)]
    userProfiles := [(1, profileNone)]
    waitingUsers := []
    activeChats := []
    chatRooms := []
    nextChatId := 0 }

/-- User record for participant 1 of `c5State`. -/
def c5User : UserR := ⟨false, false, prefsAny⟩

/-- Participant 2 is waiting and compatible with participant 1. -/
def c5State : SState :=
  { users := [(1, c5User), (2, ⟨false, false, prefsAny⟩)]
    userProfiles := [(1, profileNone), (2, profileNone)]
    waitingUsers := [(2, prefsAny)]
    activeChats := []
    chatRooms := []
    nextChatId := 0 }

/-! ## Association-list lemmas -/

theorem lookupA_cons {α : Type} (a : Nat) (b : α) (l : List (Nat × α)) (k : Nat) :
    lookupA ((a, b) :: l) k = if a == k then some b else lookupA l k := by
  cases ha : a == k with
  | true =>
    unfold lookupA
    rw [List.find?_cons_of_pos _ (by exact ha)]
    simp [ha]
  | false =>
    unfold lookupA
    rw [List.find?_cons_of_neg _ (by simp [ha])]
    simp [ha]

/-- `Map.set` on a list whose head has a different key pushes into the tail. -/
theorem setA_cons_ne {α : Type} (a : Nat) (b : α) (t : List (Nat × α)) (k : Nat) (v : α)
    (ha : (a == k) = false) :
    setA ((a, b) :: t) k v = (a, b) :: setA t k v := by
  unfold setA
  rw [List.find?_cons_of_neg _ (by simp [ha])]
  by_cases ht : (t.find? (fun e => e.1 == k)).isSome = true
  · rw [if_pos ht, if_pos ht]
    have h1 : (if ((a, b) : Nat × α).1 == k then (k, v) else (a, b)) = (a, b) := by
      rw [if_neg]
      simp [ha]
    rw [List.map_cons, h1]
  · rw [if_neg ht, if_neg ht]
    rfl

theorem lookupA_setA_self {α : Type} (l : List (Nat × α)) (k : Nat) (v : α) :
    lookupA (setA l k v) k = some v := by
  induction l with
  | nil =>
    simp [setA, lookupA, List.find?]
  | cons e t ih =>
    obtain ⟨a, b⟩ := e
    cases ha : a == k with
    | true =>
      unfold setA
      rw [if_pos (by rw [List.find?_cons_of_pos _ (by exact ha)]; rfl)]
      simp only [List.map_cons]
      rw [show (if ((a, b) : Nat × α).1 == k then (k, v) else (a, b)) = (k, v) from by
        simp [ha]]
      rw [lookupA_cons]
      simp
    | false =>
      rw [setA_cons_ne a b t k v ha, lookupA_cons, if_neg (by simp [ha]), ih]

theorem mem_setA {α : Type} {l : List (Nat × α)} {k : Nat} {v : α} {e : Nat × α}
    (he : e ∈ setA l k v) : e = (k, v) ∨ (e ∈ l ∧ e.1 ≠ k) := by
  unfold setA at he
  by_cases h : (l.find? (fun x => x.1 == k)).isSome = true
  · rw [if_pos h] at he
    obtain ⟨x, hx, hxe⟩ := List.mem_map.mp he
    by_cases hk : (x.1 == k) = true
    · left
      rw [← hxe, if_pos hk]
    · right
      rw [← hxe, if_neg hk]
      exact ⟨hx, by simpa using hk⟩
  · rw [if_neg h] at he
    rcases List.mem_append.mp he with h1 | h1
    · right
      refine ⟨h1, ?_⟩
      have hnone : l.find? (fun x => x.1 == k) = none := by
        cases hf : l.find? (fun x => x.1 == k) with
        | none => rfl
        | some a => rw [hf] at h; simp at h
      have := List.find?_eq_none.mp hnone e h1
      simpa using this
    · left
      simpa using h1

theorem keys_setA_found {α : Type} {l : List (Nat × α)} {k : Nat} (v : α)
    (h : (l.find? (fun x => x.1 == k)).isSome = true) :
    (setA l k v).map (·.1) = l.map (·.1) := by
  unfold setA
  rw [if_pos h, List.map_map]
  apply List.map_congr_left
  intro x _
  by_cases hk : (x.1 == k) = true
  · have hx1 : x.1 = k := by simpa using hk
    simp only [Function.comp_apply, if_pos hk]
    exact hx1.symm
  · simp only [Function.comp_apply, if_neg hk]

theorem keys_setA_none {α : Type} {l : List (Nat × α)} {k : Nat} (v : α)
    (h : (l.find? (fun x => x.1 == k)).isSome = false) :
    (setA l k v).map (·.1) = l.map (·.1) ++ [k] := by
  unfold setA
  rw [if_neg (by simp [h]), List.map_append]
  rfl

/-- `Map.set` when the head already carries the key. -/
theorem setA_cons_eq {α : Type} (a : Nat) (b : α) (t : List (Nat × α)) (k : Nat) (v : α)
    (ha : (a == k) = true) :
    setA ((a, b) :: t) k v = (k, v) :: t.map (fun e => if e.1 == k then (k, v) else e) := by
  unfold setA
  rw [if_pos (by rw [List.find?_cons_of_pos _ (by exact ha)]; rfl)]
  rw [List.map_cons, if_pos ha]

theorem setA_setA {α : Type} (l : List (Nat × α)) (k : Nat) (v w : α) :
    setA (setA l k v) k w = setA l k w := by
  induction l with
  | nil =>
    show setA [(k, v)] k w = [(k, w)]
    rw [setA_cons_eq k v [] k w (beq_self_eq_true k)]
    rfl
  | cons e t ih =>
    obtain ⟨a, b⟩ := e
    cases ha : a == k with
    | false =>
      rw [setA_cons_ne a b t k v ha, setA_cons_ne a b _ k w ha, setA_cons_ne a b t k w ha, ih]
    | true =>
      rw [setA_cons_eq a b t k v ha, setA_cons_eq k v _ k w (beq_self_eq_true k),
        setA_cons_eq a b t k w ha, List.map_map]
      refine congrArg (fun s => (k, w) :: s) ?_
      apply List.map_congr_left
      intro x _
      by_cases hk : (x.1 == k) = true
      · simp only [Function.comp_apply, if_pos hk]
        rw [if_pos (beq_self_eq_true k)]
      · simp only [Function.comp_apply, if_neg hk]

theorem mem_delA {α : Type} {l : List (Nat × α)} {k : Nat} {e : Nat × α} :
    e ∈ delA l k ↔ e ∈ l ∧ (e.1 == k) = false := by
  unfold delA
  rw [List.mem_filter]
  simp

theorem keys_delA_sublist {α : Type} (l : List (Nat × α)) (k : Nat) :
    ((delA l k).map (·.1)).Sublist (l.map (·.1)) :=
  (List.filter_sublist l).map _

theorem lookupA_delA_self {α : Type} (l : List (Nat × α)) (k : Nat) :
    lookupA (delA l k) k = none := by
  unfold lookupA
  have : (delA l k).find? (fun e => e.1 == k) = none := by
    apply List.find?_eq_none.mpr
    intro e he
    have h2 := (mem_delA.mp he).2
    simp [h2]
  rw [this]
  rfl

/-- A key below the id counter bound is absent from the map. -/
theorem find?_isSome_false_of_lt {α : Type} {l : List (Nat × α)} {n : Nat}
    (h : ∀ e ∈ l, e.1 < n) :
    (l.find? (fun x => x.1 == n)).isSome = false := by
  cases hf : l.find? (fun x => x.1 == n) with
  | none => rfl
  | some a =>
    have ha := List.find?_some hf
    have hmem := List.mem_of_find?_eq_some hf
    have := h a hmem
    have : a.1 = n := by simpa using ha
    omega

/-! ## Helper lemmas about the matcher -/

theorem compatCore_symm :
    ∀ (a b : Option Gender) (x y : PrefG), compatCore a b x y = compatCore b a y x := by
  decide

theorem startChatSvc_waitingUsers (st : SState) (a b : Nat) :
    (startChatSvc st a b).waitingUsers = st.waitingUsers := by
  unfold startChatSvc
  rcases lookupA st.users a with _ | u1 <;> rcases lookupA st.users b with _ | u2 <;> rfl

/-- The queue scan of `findCompatiblePartner` returns exactly the first entry
(in queue order) that is not the requester and satisfies `compatWith`,
provided every queue entry still has a user record. -/
theorem fcpLoop_eq_find (st : SState) (userId : Nat) (up : Option ProfileR)
    (upr : Prefs) (l : List (Nat × Prefs))
    (hwf : ∀ e ∈ l, (lookupA st.users e.1).isSome = true) :
    fcpLoop st userId up upr l =
      (l.find? (fun e => e.1 != userId && compatWith st userId up upr e.1)).map (·.1) := by
  induction l with
  | nil => rfl
  | cons e rest ih =>
    obtain ⟨wid, wprefs⟩ := e
    have hrest : ∀ e ∈ rest, (lookupA st.users e.1).isSome = true := by
      intro e he
      exact hwf e (List.mem_cons_of_mem _ he)
    rcases eq_or_ne wid userId with heq | hne
    · subst heq
      rw [List.find?_cons_of_neg _ (by simp)]
      simp only [fcpLoop, beq_self_eq_true]
      rw [if_pos trivial]
      exact ih hrest
    · have hbeq : (wid == userId) = false := beq_eq_false_iff_ne.mpr hne
      have hsome : (lookupA st.users wid).isSome = true :=
        hwf (wid, wprefs) (List.mem_cons_self _ _)
      obtain ⟨wu, hwu⟩ := Option.isSome_iff_exists.mp hsome
      have hcw : compatWith st userId up upr wid =
          isGenderCompatible up upr (lookupA st.userProfiles wid) wu.preferences := by
        unfold compatWith
        rw [hwu]
      simp only [fcpLoop, hbeq, Bool.false_eq_true, if_false, hwu]
      cases hcompat : isGenderCompatible up upr (lookupA st.userProfiles wid) wu.preferences with
      | true =>
        rw [if_pos rfl, List.find?_cons_of_pos _ (by simp [bne, hbeq, hcw, hcompat])]
        rfl
      | false =>
        rw [if_neg (by simp), List.find?_cons_of_neg _ (by simp [hcw, hcompat])]
        exact ih hrest

/-! ## Group subsystem lemmas -/

theorem setUserGroupStatus_groups (st : GState) (uid : Nat) (b : Bool) :
    (setUserGroupStatus st uid b).groups = st.groups := by
  unfold setUserGroupStatus
  cases lookupA st.users uid <;> rfl

theorem setUserGroupStatus_nextGroupId (st : GState) (uid : Nat) (b : Bool) :
    (setUserGroupStatus st uid b).nextGroupId = st.nextGroupId := by
  unfold setUserGroupStatus
  cases lookupA st.users uid <;> rfl

theorem leaveGroupChat_nextGroupId (st : GState) (uid : Nat) :
    (leaveGroupChat st uid).2.nextGroupId = st.nextGroupId := by
  unfold leaveGroupChat
  cases hfb : findByMember st uid with
  | none => rfl
  | some e =>
    obtain ⟨gid, g⟩ := e
    dsimp only
    cases hrm : GroupChat.removeMember g uid with
    | none => rfl
    | some g' =>
      dsimp only
      by_cases hl : 0 < g'.members.length
      · rw [if_pos hl]
        exact setUserGroupStatus_nextGroupId st uid false
      · rw [if_neg hl]
        exact setUserGroupStatus_nextGroupId st uid false

theorem leaveGroupChat_GInv (st : GState) (uid : Nat) (h : GInv st) :
    GInv (leaveGroupChat st uid).2 := by
  obtain ⟨hwf, hkeys⟩ := h
  unfold leaveGroupChat
  cases hfb : findByMember st uid with
  | none => exact ⟨hwf, hkeys⟩
  | some e =>
    obtain ⟨gid, g⟩ := e
    have hmem : (gid, g) ∈ st.groups := List.mem_of_find?_eq_some hfb
    obtain ⟨hmax, hlen, _, hact, hnd, hlt⟩ := hwf _ hmem
    have hfound : (st.groups.find? (fun x => x.1 == gid)).isSome = true :=
      List.find?_isSome.mpr ⟨(gid, g), hmem, by simp⟩
    dsimp only
    cases hrm : GroupChat.removeMember g uid with
    | none => exact ⟨hwf, hkeys⟩
    | some g' =>
      dsimp only
      have hpred : g.members.contains uid = true := by
        have := List.find?_some hfb
        simpa [GroupChat.hasMember] using this
      have hrm' : g' = { g with
          members := g.members.filter (fun m => !(m == uid))
          isActive := if (g.members.filter (fun m => !(m == uid))).length = 0 then false
            else g.isActive } := by
        unfold GroupChat.removeMember at hrm
        rw [if_pos hpred] at hrm
        dsimp only at hrm
        exact (Option.some_inj.mp hrm).symm
      by_cases hl : 0 < g'.members.length
      · rw [if_pos hl]
        show GInvP (setA (setUserGroupStatus st uid false).groups gid g')
          (setUserGroupStatus st uid false).nextGroupId
        rw [setUserGroupStatus_groups, setUserGroupStatus_nextGroupId]
        constructor
        · intro e he
          rcases mem_setA he with rfl | ⟨hin, _⟩
          · have hlen' : g'.members.length ≤ 6 := by
              rw [hrm']
              exact le_trans (List.length_filter_le _ _) hlen
            have hact' : g'.isActive = true := by
              rw [hrm'] at hl ⊢
              simp only at hl ⊢
              rw [if_neg (by omega)]
              exact hact
            refine ⟨by rw [hrm']; exact hmax, hlen', ?_, hact', ?_, hlt⟩
            · exact List.length_pos.mp hl
            · rw [hrm']
              exact hnd.filter _
          · exact hwf e hin
        · rw [keys_setA_found _ hfound]
          exact hkeys
      · rw [if_neg hl]
        show GInvP (delA (setUserGroupStatus st uid false).groups gid)
          (setUserGroupStatus st uid false).nextGroupId
        rw [setUserGroupStatus_groups, setUserGroupStatus_nextGroupId]
        exact ⟨fun e he => hwf e (mem_delA.mp he).1,
          hkeys.sublist (keys_delA_sublist _ _)⟩

theorem lookupA_eq_none_of_isSome_false {α : Type} {l : List (Nat × α)} {k : Nat}
    (h : (l.find? (fun x => x.1 == k)).isSome = false) : lookupA l k = none := by
  unfold lookupA
  cases hf : l.find? (fun x => x.1 == k) with
  | none => rfl
  | some a =>
    rw [hf] at h
    simp at h

theorem addMember_fresh (uid : Nat) :
    GroupChat.addMember ⟨[], 6, true⟩ uid = some ⟨[uid], 6, true⟩ := by
  unfold GroupChat.addMember
  rw [if_neg (by simp), if_neg (by simp)]
  rfl

theorem joinGroupChat_GInv (st : GState) (uid : Nat) (h : GInv st) :
    GInv (joinGroupChat st uid).2 := by
  unfold joinGroupChat
  cases hu : lookupA st.users uid with
  | none => exact h
  | some u =>
    dsimp only
    by_cases hic : u.isInChat = true
    · rw [if_pos hic]
      exact h
    · rw [if_neg hic]
      have h1 : GInv (if u.isInGroup = true then (leaveGroupChat st uid).2 else st) := by
        by_cases hg : u.isInGroup = true
        · rw [if_pos hg]
          exact leaveGroupChat_GInv st uid h
        · rw [if_neg hg]
          exact h
      generalize hst1 : (if u.isInGroup = true then (leaveGroupChat st uid).2 else st) = st1 at h1 ⊢
      obtain ⟨hwf1, hkeys1⟩ := h1
      cases hfa : findAvailableGroupC st1 with
      | some e =>
        obtain ⟨gid, g⟩ := e
        dsimp only
        have hmem : (gid, g) ∈ st1.groups := List.mem_of_find?_eq_some hfa
        have hfound : (st1.groups.find? (fun x => x.1 == gid)).isSome = true :=
          List.find?_isSome.mpr ⟨(gid, g), hmem, by simp⟩
        obtain ⟨hmax, _, _, hact, hnd, hlt⟩ := hwf1 _ hmem
        have hmax' : g.maxMembers = 6 := hmax
        have hact' : g.isActive = true := hact
        have hnd' : g.members.Nodup := hnd
        have hlt' : gid < st1.nextGroupId := hlt
        have hspace : g.members.length < g.maxMembers := by
          have hp := List.find?_some hfa
          simp only [Bool.and_eq_true] at hp
          have h2 := hp.2
          simpa [GroupChat.hasSpace] using h2
        by_cases hcont : g.members.contains uid = true
        · have hnoadd : GroupChat.addMember g uid = none := by
            unfold GroupChat.addMember
            rw [if_neg (by omega), if_pos hcont]
          rw [hnoadd]
          exact ⟨hwf1, hkeys1⟩
        · have hadd : GroupChat.addMember g uid =
              some { g with members := g.members ++ [uid] } := by
            unfold GroupChat.addMember
            rw [if_neg (by omega), if_neg hcont]
          rw [hadd]
          show GInvP
            (setA (setUserGroupStatus st1 uid true).groups gid { g with members := g.members ++ [uid] })
            (setUserGroupStatus st1 uid true).nextGroupId
          rw [setUserGroupStatus_groups, setUserGroupStatus_nextGroupId]
          constructor
          · intro e he
            rcases mem_setA he with rfl | ⟨hin, _⟩
            · have huid : uid ∉ g.members := by simpa using hcont
              refine ⟨hmax', ?_, by simp, hact', ?_, hlt'⟩
              · show (g.members ++ [uid]).length ≤ 6
                simp only [List.length_append, List.length_singleton]
                omega
              · show (g.members ++ [uid]).Nodup
                rw [List.nodup_append]
                refine ⟨hnd', List.nodup_singleton _, ?_⟩
                rw [List.disjoint_singleton]
                exact huid
            · exact hwf1 e hin
          · rw [keys_setA_found _ hfound]
            exact hkeys1
      | none =>
        have hfresh : (st1.groups.find? (fun x => x.1 == st1.nextGroupId)).isSome = false :=
          find?_isSome_false_of_lt (fun e he => (hwf1 e he).2.2.2.2.2)
        rw [addMember_fresh uid]
        show GInvP
          (setA (setUserGroupStatus
            { st1 with
              groups := setA st1.groups st1.nextGroupId ⟨[], 6, true⟩
              nextGroupId := st1.nextGroupId + 1 } uid true).groups
            st1.nextGroupId ⟨[uid], 6, true⟩)
          (setUserGroupStatus
            { st1 with
              groups := setA st1.groups st1.nextGroupId ⟨[], 6, true⟩
              nextGroupId := st1.nextGroupId + 1 } uid true).nextGroupId
        rw [setUserGroupStatus_groups, setUserGroupStatus_nextGroupId]
        show GInvP (setA (setA st1.groups st1.nextGroupId ⟨[], 6, true⟩)
          st1.nextGroupId ⟨[uid], 6, true⟩) (st1.nextGroupId + 1)
        rw [setA_setA]
        have happ : setA st1.groups st1.nextGroupId (⟨[uid], 6, true⟩ : GGroup) =
            st1.groups ++ [(st1.nextGroupId, ⟨[uid], 6, true⟩)] := by
          unfold setA
          rw [if_neg (by simp [hfresh])]
        rw [happ]
        constructor
        · intro e he
          rcases List.mem_append.mp he with h1 | h1
          · obtain ⟨a1, a2, a3, a4, a5, a6⟩ := hwf1 e h1
            exact ⟨a1, a2, a3, a4, a5, Nat.lt_succ_of_lt a6⟩
          · have he' : e = (st1.nextGroupId, ⟨[uid], 6, true⟩) := List.mem_singleton.mp h1
            subst he'
            exact ⟨rfl, by simp, by simp, rfl, List.nodup_singleton _, Nat.lt_succ_self _⟩
        · rw [List.map_append, List.nodup_append]
          refine ⟨hkeys1, by simp, ?_⟩
          intro x hx hx2
          obtain ⟨e, hein, hex⟩ := List.mem_map.mp hx
          have h6 := (hwf1 e hein).2.2.2.2.2
          have hx2' : x = st1.nextGroupId := by simpa using hx2
          omega

theorem gstep_GInv (st : GState) (op : GOp) (h : GInv st) : GInv (gstep st op) := by
  cases op with
  | connect uid => exact h
  | setChat uid b =>
    unfold gstep
    dsimp only
    cases lookupA st.users uid with
    | none => exact h
    | some u => exact h
  | join uid => exact joinGroupChat_GInv st uid h
  | leave uid => exact leaveGroupChat_GInv st uid h

theorem foldl_gstep_GInv (ops : List GOp) (st : GState) (h : GInv st) :
    GInv (ops.foldl gstep st) := by
  induction ops generalizing st with
  | nil => exact h
  | cons op rest ih => exact ih _ (gstep_GInv st op h)

theorem runOps_GInv (ops : List GOp) : GInv (runOps ops) := by
  apply foldl_gstep_GInv
  constructor
  · intro e he
    simp [ginit] at he
  · simp [ginit]

/-! ## Claim theorems: matcher -/

/-- C1 counterexample: a `waiting` participant (1) and a `grouped`
participant (2) are not rejected by `handleStartChat`; both are (re-)enqueued
with a `waitingForPartner` acknowledgement instead of the claimed
`already active` error. -/
theorem c1_counterexample :
    (lookupA c1StateWaiting.waitingUsers 1).isSome = true ∧
    (lookupA c1StateWaiting.users 1).map (·.isInChat) = some false ∧
    (handleStartChat c1StateWaiting 1).1 = .waitingAck ∧
    (lookupA c1StateGrouped.users 2).map (·.isInGroup) = some true ∧
    (handleStartChat c1StateGrouped 2).1 = .waitingAck := by
  decide

/-- C1 (amended): `handleStartChat` rejects exactly the participants whose
`isInChat` flag is set (and unknown ids); for them it returns the
`already active` error and leaves the whole state unchanged.  Participants
that are merely waiting or grouped are not rejected. -/
theorem c1_paired_rejected (st : SState) (id : Nat) (u : UserR)
    (hu : lookupA st.users id = some u) (hc : u.isInChat = true) :
    handleStartChat st id = (.errorAlready, st) := by
  unfold handleStartChat
  rw [hu]
  simp [hc]

theorem c1_paired_rejected_witness :
    handleStartChat c1StatePaired 3 = (.errorAlready, c1StatePaired) :=
  c1_paired_rejected c1StatePaired 3 ⟨true, false, prefsAny⟩ (by decide) (by decide)

/-- C2 counterexample: two participants who both have `gender = male` and
`preferredGender = male` satisfy each other's preference, so
`isGenderCompatible` returns `true`, not `false` as claimed. -/
theorem c2_counterexample :
    isGenderCompatible (some profileMaleP) prefsMale (some profileMaleP) prefsMale = true := by
  decide

/-- C2 (amended): for A(pref=male, gender=male) and B(pref=male,
gender=male) the compatibility predicate returns `true`; A's pairing request
enqueues A, and B's subsequent request matches B with A, removing A from the
waiting queue. -/
theorem c2_scenario_matches :
    isGenderCompatible (some profileMaleP) prefsMale (some profileMaleP) prefsMale = true ∧
    (handleStartChat c2State 1).1 = .waitingAck ∧
    (handleStartChat (handleStartChat c2State 1).2 2).1 = .matched 1 ∧
    (handleStartChat (handleStartChat c2State 1).2 2).2.waitingUsers = [] := by
  decide

/-- C4: the compatibility predicate is symmetric in its two
(profile, preferences) argument pairs. -/
theorem c4_compat_symm (pa pb : Option ProfileR) (prA prB : Prefs) :
    isGenderCompatible pa prA pb prB = isGenderCompatible pb prB pa prA :=
  compatCore_symm (pa.bind (·.gender)) (pb.bind (·.gender))
    (prA.preferredGender.getD .anyG) (prB.preferredGender.getD .anyG)

/-- C5: when the waiting queue contains a compatible entry, `handleStartChat`
matches the requester with the first entry in queue (FIFO) order that is not
the requester itself and satisfies the compatibility predicate, and removes
exactly that entry from the waiting queue. -/
theorem c5_fifo_first_compatible (st : SState) (id : Nat) (u : UserR) (w : Nat × Prefs)
    (hu : lookupA st.users id = some u) (hc : u.isInChat = false)
    (hwf : ∀ e ∈ st.waitingUsers, (lookupA st.users e.1).isSome = true)
    (hfind : st.waitingUsers.find?
      (fun e => e.1 != id && compatWith st id (lookupA st.userProfiles id) u.preferences e.1)
      = some w) :
    (handleStartChat st id).1 = .matched w.1 ∧
    (handleStartChat st id).2.waitingUsers = delA st.waitingUsers w.1 := by
  have hfcp : findCompatiblePartner st id = some w.1 := by
    unfold findCompatiblePartner
    rw [hu]
    show fcpLoop st id (lookupA st.userProfiles id) u.preferences st.waitingUsers = some w.1
    rw [fcpLoop_eq_find st id _ _ _ hwf, hfind]
    rfl
  have heq : handleStartChat st id =
      (.matched w.1, startChatSvc (removeFromWaitingList st w.1) id w.1) := by
    unfold handleStartChat
    rw [hu]
    show (if u.isInChat = true then ((.errorAlready, st) : StartChatOutcome × SState) else
      match findCompatiblePartner st id with
      | some partner =>
        (.matched partner, startChatSvc (removeFromWaitingList st partner) id partner)
      | none =>
        (.waitingAck, addToWaitingList st id u.preferences))
      = (.matched w.1, startChatSvc (removeFromWaitingList st w.1) id w.1)
    rw [if_neg (by simp [hc]), hfcp]
  rw [heq]
  exact ⟨rfl, by rw [startChatSvc_waitingUsers]; rfl⟩

theorem c5_fifo_first_compatible_witness :
    (handleStartChat c5State 1).1 = .matched 2 ∧
    (handleStartChat c5State 1).2.waitingUsers = delA c5State.waitingUsers 2 :=
  c5_fifo_first_compatible c5State 1 c5User (2, prefsAny)
    (by decide) (by decide) (by decide) (by decide)

/-! ## Claim theorems: profile and preference updates -/

/-- C9 counterexample: an update whose input contains no field at all still
flips the stored profile's `isProfileComplete` field from `false` to `true`,
so not every absent field retains its prior value. -/
theorem c9_counterexample :
    lookupA c9State.userProfiles 1 = some profileNone ∧
    profileNone.isProfileComplete = false ∧
    (lookupA (updateUserProfile c9State 1 ⟨none, none, none⟩).2.userProfiles 1).map
      (·.isProfileComplete) = some true := by
  decide

/-- C9 (amended): `updateUserProfile` sparse-merges exactly the `name`,
`gender` and `avatar` fields — each field present in the input is stored,
each absent one keeps its prior value — but always sets `isProfileComplete`
to `true`; `updateUserPreferences` sparse-merges every field of the
preferences object. -/
theorem c9_sparse_merge (st : SState) (id : Nat) (cur : ProfileR) (u : UserR)
    (p : ProfilePatch) (q : PrefsPatch)
    (hp : lookupA st.userProfiles id = some cur)
    (hu : lookupA st.users id = some u) :
    lookupA (updateUserProfile st id p).2.userProfiles id =
      some ⟨p.name.getD cur.name, p.gender.getD cur.gender, p.avatar.getD cur.avatar, true⟩ ∧
    lookupA (updateUserPreferences st id q).2.users id =
      some { u with preferences := ⟨q.preferredGender.getD u.preferences.preferredGender⟩ } := by
  constructor
  · show lookupA (updateUserProfile st id p).2.userProfiles id = _
    unfold updateUserProfile
    rw [hp]
    exact lookupA_setA_self _ _ _
  · unfold updateUserPreferences
    rw [hu]
    exact lookupA_setA_self _ _ _

/-! ## Claim theorems: group sessions -/

/-- C8: in every reachable state of the group subsystem, every stored
group's member count is at most its capacity 6; removing the last member
marks the group inactive and `leaveGroupChat` deletes it from the store;
`findAvailableGroup` only ever returns a stored, non-empty, active group;
and when no group has space, a joiner gets a brand-new group id that was not
in the store. -/
theorem c8_group_invariants (ops : List GOp) :
    (∀ e ∈ (runOps ops).groups,
      e.2.members.length ≤ e.2.maxMembers ∧ e.2.maxMembers = 6) ∧
    (∀ uid gid g, findByMember (runOps ops) uid = some (gid, g) → g.members = [uid] →
      (GroupChat.removeMember g uid).map (·.isActive) = some false ∧
      lookupA (leaveGroupChat (runOps ops) uid).2.groups gid = none) ∧
    (∀ gid g, findAvailableGroupC (runOps ops) = some (gid, g) →
      (gid, g) ∈ (runOps ops).groups ∧ g.members ≠ [] ∧ g.isActive = true) ∧
    (∀ uid u, findAvailableGroupC (runOps ops) = none →
      lookupA (runOps ops).users uid = some u → u.isInChat = false → u.isInGroup = false →
      (joinGroupChat (runOps ops) uid).1 = .ok (runOps ops).nextGroupId ∧
      lookupA (runOps ops).groups (runOps ops).nextGroupId = none) := by
  obtain ⟨hwf, hkeys⟩ := runOps_GInv ops
  refine ⟨?_, ?_, ?_, ?_⟩
  · intro e he
    obtain ⟨hmax, hlen, _, _, _, _⟩ := hwf e he
    exact ⟨by rw [hmax]; exact hlen, hmax⟩
  · intro uid gid g hfb hone
    have hpred : g.members.contains uid = true := by
      have := List.find?_some hfb
      simpa [GroupChat.hasMember] using this
    have hrm : GroupChat.removeMember g uid = some { g with members := [], isActive := false } := by
      unfold GroupChat.removeMember
      rw [if_pos hpred, hone]
      have hf : List.filter (fun m => !(m == uid)) [uid] = [] := by simp
      dsimp only
      rw [hf]
      rfl
    constructor
    · rw [hrm]
      rfl
    · unfold leaveGroupChat
      rw [hfb]
      dsimp only
      rw [hrm]
      dsimp only
      rw [if_neg (by simp)]
      exact lookupA_delA_self _ _
  · intro gid g hfa
    have hmem : (gid, g) ∈ (runOps ops).groups := List.mem_of_find?_eq_some hfa
    obtain ⟨_, _, hne, hact, _, _⟩ := hwf _ hmem
    exact ⟨hmem, hne, hact⟩
  · intro uid u hfa hu hic hig
    have hfresh : ((runOps ops).groups.find?
        (fun x => x.1 == (runOps ops).nextGroupId)).isSome = false :=
      find?_isSome_false_of_lt (fun e he => (hwf e he).2.2.2.2.2)
    constructor
    · unfold joinGroupChat
      rw [hu]
      dsimp only
      rw [if_neg (by simp [hic]), if_neg (by simp [hig]), hfa]
      dsimp only
      rw [addMember_fresh uid]
    · exact lookupA_eq_none_of_isSome_false hfresh

theorem c8_group_invariants_witness :
    (GroupChat.removeMember ⟨[1], 6, true⟩ 1).map (·.isActive) = some false ∧
    lookupA (leaveGroupChat (runOps [.connect 1, .join 1]) 1).2.groups 0 = none :=
  (c8_group_invariants [.connect 1, .join 1]).2.1 1 0 ⟨[1], 6, true⟩ (by decide) (by decide)

theorem c9_sparse_merge_witness :
    lookupA (updateUserProfile c9State 1 ⟨none, some (some .female), none⟩).2.userProfiles 1 =
      some ⟨none, some .female, none, true⟩ ∧
    lookupA (updateUserPreferences c9State 1 ⟨some (some .male)⟩).2.users 1 =
      some ⟨false, false, ⟨some .male⟩⟩ :=
  c9_sparse_merge c9State 1 profileNone ⟨false, false, prefsAny⟩
    ⟨none, some (some .female), none⟩ ⟨some (some .male)⟩ (by decide) (by decide)

/-! ## Filter lemmas: characters and classes -/

theorem rgAuxF_nil (fuel : Nat) (p : Pat) (prev : Option Char) :
    rgAuxF fuel p prev [] = [] := by
  cases fuel <;> rfl

theorem isSpace_not_upper {c : Char} (h : isSpaceChar c = true) :
    ¬(c.toNat ≥ 65 ∧ c.toNat ≤ 90) := by
  unfold isSpaceChar at h
  simp only [Bool.or_eq_true, beq_iff_eq, Bool.and_eq_true, decide_eq_true_eq] at h
  omega

theorem isSpace_not_lower {c : Char} (h : isSpaceChar c = true) :
    ¬(97 ≤ c.toNat ∧ c.toNat ≤ 122) := by
  unfold isSpaceChar at h
  simp only [Bool.or_eq_true, beq_iff_eq, Bool.and_eq_true, decide_eq_true_eq] at h
  omega

theorem toLower_space {c : Char} (h : isSpaceChar c = true) : c.toLower = c := by
  unfold Char.toLower
  exact if_neg (isSpace_not_upper h)

theorem lowerAscii_ne_star {b : Char} (hb : isLowerAscii b = true) : b ≠ '*' := by
  intro he
  subst he
  exact absurd hb (by decide)

theorem star_not_elem (k : PatKind) (b : Char) (hb : isLowerAscii b = true) :
    elemMatch k b '*' = false := by
  have hbne : ('*' == b) = false :=
    beq_eq_false_iff_ne.mpr (Ne.symm (lowerAscii_ne_star hb))
  have hstar : ('*').toLower = '*' := by decide
  cases k with
  | leet =>
    show classMatches b '*' = false
    unfold classMatches
    rw [hstar]
    unfold classChars
    split
    · decide
    · decide
    · decide
    · decide
    · decide
    · decide
    · decide
    · simpa using hbne
  | spaced =>
    show litMatches b '*' = false
    unfold litMatches
    rw [hstar]
    exact hbne

theorem elem_not_space (k : PatKind) (b c : Char) (hb : isLowerAscii b = true)
    (h : elemMatch k b c = true) : isSpaceChar c = false := by
  by_contra hcne
  rw [Bool.not_eq_false] at hcne
  have hl : c.toLower = c := toLower_space hcne
  cases k with
  | spaced =>
    have h' : (c.toLower == b) = true := h
    rw [hl] at h'
    have hcb : c = b := by simpa using h'
    subst hcb
    unfold isLowerAscii at hb
    simp only [Bool.and_eq_true, decide_eq_true_eq] at hb
    exact absurd hb (isSpace_not_lower hcne)
  | leet =>
    have h' : (classChars b).contains c.toLower = true := h
    rw [hl] at h'
    have hmem : c ∈ classChars b := List.mem_of_elem_eq_true h'
    unfold isLowerAscii at hb
    simp only [Bool.and_eq_true, decide_eq_true_eq] at hb
    have hlow := isSpace_not_lower hcne
    have hno : ∀ L : List Char, (L.all (fun x => !isSpaceChar x)) = true → c ∈ L → False := by
      intro L hL hmem'
      have hx := List.all_eq_true.mp hL c hmem'
      simp only [Bool.not_eq_true'] at hx
      rw [hx] at hcne
      exact absurd hcne (by decide)
    revert hmem
    unfold classChars
    split
    · exact hno _ (by decide)
    · exact hno _ (by decide)
    · exact hno _ (by decide)
    · exact hno _ (by decide)
    · exact hno _ (by decide)
    · exact hno _ (by decide)
    · exact hno _ (by decide)
    · intro hmem
      have hcb : c = b := List.mem_singleton.mp hmem
      subst hcb
      exact absurd hb hlow

/-! ## Filter lemmas: single match attempts -/

theorem good_head {q : Pat} (hq : goodPat q = true) :
    ∃ b bs, q.word = b :: bs ∧ isLowerAscii b = true ∧ ∀ x ∈ bs, isLowerAscii x = true := by
  unfold goodPat goodWord at hq
  simp only [Bool.and_eq_true, Bool.not_eq_true'] at hq
  obtain ⟨hne, hall⟩ := hq
  cases hw : q.word with
  | nil =>
    rw [hw] at hne
    simp at hne
  | cons b bs =>
    rw [hw] at hall
    simp only [List.all_cons, Bool.and_eq_true] at hall
    exact ⟨b, bs, rfl, hall.1, fun x hx => List.all_eq_true.mp hall.2 x hx⟩

theorem matchAt_bnd {p : Pat} {r : Option Char} {c : Char} {cs : List Char}
    {x : Nat × Char} (h : matchAt p r (c :: cs) = some x) : bnd r c = true := by
  unfold matchAt at h
  cases hw : p.word with
  | nil =>
    rw [hw] at h
    simp at h
  | cons b bs =>
    rw [hw] at h
    dsimp only at h
    cases hb : bnd r c with
    | true => rfl
    | false =>
      rw [hb] at h
      simp at h

theorem matchAt_elem {p : Pat} {r : Option Char} {c : Char} {cs : List Char}
    {x : Nat × Char} {b : Char} {bs : List Char}
    (h : matchAt p r (c :: cs) = some x) (hw : p.word = b :: bs) :
    elemMatch p.kind b c = true := by
  unfold matchAt at h
  rw [hw] at h
  dsimp only at h
  cases he : elemMatch p.kind b c with
  | true => rfl
  | false =>
    rw [he] at h
    simp at h

theorem matchAt_consume {p : Pat} {r : Option Char} {c : Char} {cs : List Char}
    {x : Nat × Char} {b : Char} {bs : List Char}
    (h : matchAt p r (c :: cs) = some x) (hw : p.word = b :: bs) :
    ∃ m last, consumeRest p.kind bs c cs = some (m, last) ∧ x = (1 + m, last) := by
  unfold matchAt at h
  rw [hw] at h
  dsimp only at h
  cases hcond : (bnd r c && elemMatch p.kind b c) with
  | false =>
    rw [hcond] at h
    simp at h
  | true =>
    rw [hcond] at h
    simp only [if_true] at h
    obtain ⟨⟨m, last⟩, hmr, hx⟩ := Option.map_eq_some'.mp h
    exact ⟨m, last, hmr, hx.symm⟩

theorem matchAt_congr {p : Pat} {r r' : Option Char} {c : Char} {cs : List Char}
    (hb : bnd r c = bnd r' c) : matchAt p r (c :: cs) = matchAt p r' (c :: cs) := by
  unfold matchAt
  cases p.word with
  | nil => rfl
  | cons b bs =>
    dsimp only
    rw [hb]

theorem matchAt_star {q : Pat} (hq : goodPat q = true) (r : Option Char) (xs : List Char) :
    matchAt q r ('*' :: xs) = none := by
  obtain ⟨b, bs, hw, hbl, _⟩ := good_head hq
  unfold matchAt
  rw [hw]
  dsimp only
  rw [star_not_elem q.kind b hbl]
  simp

theorem matchAt_space {q : Pat} (hq : goodPat q = true) {c : Char}
    (hc : isSpaceChar c = true) (r : Option Char) (xs : List Char) :
    matchAt q r (c :: xs) = none := by
  obtain ⟨b, bs, hw, hbl, _⟩ := good_head hq
  unfold matchAt
  rw [hw]
  dsimp only
  cases he : elemMatch q.kind b c with
  | false => simp
  | true =>
    have := elem_not_space q.kind b c hbl he
    rw [this] at hc
    exact absurd hc (by decide)

/-! ## Filter lemmas: whitespace runs, consumption, scanning -/

theorem spanSpaces_cons_space {c : Char} (cs : List Char) (hc : isSpaceChar c = true) :
    spanSpaces (c :: cs) = ((spanSpaces cs).1 + 1, (spanSpaces cs).2) := by
  simp only [spanSpaces]
  rw [if_pos hc]

theorem spanSpaces_cons_nospace {c : Char} (cs : List Char) (hc : isSpaceChar c = false) :
    spanSpaces (c :: cs) = (0, c :: cs) := by
  simp only [spanSpaces]
  rw [if_neg (by simp [hc])]

theorem spanSpaces_drop (s : List Char) :
    List.drop (spanSpaces s).1 s = (spanSpaces s).2 := by
  induction s with
  | nil => rfl
  | cons c cs ih =>
    by_cases hc : isSpaceChar c = true
    · rw [spanSpaces_cons_space cs hc]
      dsimp only
      rw [List.drop_succ_cons]
      exact ih
    · rw [spanSpaces_cons_nospace cs (by simpa using hc)]
      rfl

theorem hasMatchAux_head {q : Pat} {prev : Option Char} {c : Char} {cs : List Char}
    (h : hasMatchAux q prev (c :: cs) = false) : matchAt q prev (c :: cs) = none := by
  unfold hasMatchAux at h
  cases hm : matchAt q prev (c :: cs) with
  | none => rfl
  | some x =>
    rw [hm] at h
    simp at h

theorem hasMatchAux_tail {q : Pat} {prev : Option Char} {c : Char} {cs : List Char}
    (h : hasMatchAux q prev (c :: cs) = false) : hasMatchAux q (some c) cs = false := by
  unfold hasMatchAux at h
  cases hr : hasMatchAux q (some c) cs with
  | false => rfl
  | true =>
    rw [hr] at h
    simp at h

/-- Skipping a leading whitespace run preserves "no match", updating the
scanning context accordingly. -/
theorem spanSpaces_hasMatch (q : Pat) :
    ∀ (s : List Char) (prev : Option Char), hasMatchAux q prev s = false →
    hasMatchAux q (spacesPrev prev s) (spanSpaces s).2 = false := by
  intro s
  induction s with
  | nil =>
    intro prev _
    rfl
  | cons c cs ih =>
    intro prev h
    by_cases hc : isSpaceChar c = true
    · rw [spanSpaces_cons_space cs hc]
      unfold spacesPrev
      rw [if_pos hc]
      exact ih (some c) (hasMatchAux_tail h)
    · rw [spanSpaces_cons_nospace cs (by simpa using hc)]
      unfold spacesPrev
      rw [if_neg hc]
      exact h

/-- The final word boundary holds after the consumed span. -/
theorem consumeRest_endBnd (k : PatKind) :
    ∀ (bs : List Char) (lastc : Char) (rest : List Char) (m : Nat) (last : Char),
    consumeRest k bs lastc rest = some (m, last) →
    endBnd last (List.drop m rest) = true := by
  intro bs
  induction bs with
  | nil =>
    intro lastc rest m last h
    unfold consumeRest at h
    by_cases he : endBnd lastc rest = true
    · rw [if_pos he] at h
      have h2 : ((0 : Nat), lastc) = (m, last) := Option.some_inj.mp h
      injection h2 with hm hl
      subst hm
      subst hl
      simpa using he
    · rw [if_neg he] at h
      cases h
  | cons b bs' ih =>
    intro lastc rest m last h
    unfold consumeRest at h
    dsimp only at h
    split at h
    · exact Option.noConfusion h
    · rename_i c cs heq
      by_cases he : elemMatch k b c = true
      · rw [if_pos he] at h
        obtain ⟨⟨m', last'⟩, hrec, hmap⟩ := Option.map_eq_some'.mp h
        dsimp only at hmap
        injection hmap with hm1 hl1
        subst hl1
        have hrec' := ih c cs m' _ hrec
        by_cases hk : k = PatKind.spaced
        · rw [if_pos hk] at heq hm1
          have hd : List.drop (spanSpaces rest).1 rest = c :: cs := by
            rw [spanSpaces_drop, heq]
          have harith : m = (spanSpaces rest).1 + (1 + m') := by omega
          have hgoal : List.drop m rest = List.drop m' cs := by
            rw [harith, ← List.drop_drop, hd, Nat.add_comm 1 m', List.drop_succ_cons]
          rw [hgoal]
          exact hrec'
        · rw [if_neg hk] at heq hm1
          dsimp only at heq hm1
          subst heq
          have harith : m = m' + 1 := by omega
          rw [harith, List.drop_succ_cons]
          exact hrec'
      · rw [if_neg he] at h
        cases h

/-- No-match is preserved by stepping past a consumed span (the scanning
context becomes the span's last character). -/
theorem consumeRest_after (q : Pat) (k : PatKind) :
    ∀ (bs : List Char) (lastc : Char) (rest : List Char) (m : Nat) (last : Char),
    consumeRest k bs lastc rest = some (m, last) →
    hasMatchAux q (some lastc) rest = false →
    hasMatchAux q (some last) (List.drop m rest) = false := by
  intro bs
  induction bs with
  | nil =>
    intro lastc rest m last h hm
    unfold consumeRest at h
    by_cases he : endBnd lastc rest = true
    · rw [if_pos he] at h
      have h2 : ((0 : Nat), lastc) = (m, last) := Option.some_inj.mp h
      injection h2 with hm1 hl1
      subst hm1
      subst hl1
      simpa using hm
    · rw [if_neg he] at h
      cases h
  | cons b bs' ih =>
    intro lastc rest m last h hm
    unfold consumeRest at h
    dsimp only at h
    split at h
    · exact Option.noConfusion h
    · rename_i c cs heq
      by_cases he : elemMatch k b c = true
      · rw [if_pos he] at h
        obtain ⟨⟨m', last'⟩, hrec, hmap⟩ := Option.map_eq_some'.mp h
        dsimp only at hmap
        injection hmap with hm1 hl1
        subst hl1
        by_cases hk : k = PatKind.spaced
        · rw [if_pos hk] at heq hm1
          have hm2 := spanSpaces_hasMatch q rest (some lastc) hm
          rw [heq] at hm2
          have hm3 := hasMatchAux_tail hm2
          have hrec' := ih c cs m' _ hrec hm3
          have harith : m = (spanSpaces rest).1 + (1 + m') := by omega
          have hd : List.drop (spanSpaces rest).1 rest = c :: cs := by
            rw [spanSpaces_drop, heq]
          have hgoal : List.drop m rest = List.drop m' cs := by
            rw [harith, ← List.drop_drop, hd, Nat.add_comm 1 m', List.drop_succ_cons]
          rw [hgoal]
          exact hrec'
        · rw [if_neg hk] at heq hm1
          dsimp only at heq hm1
          subst heq
          have hm3 := hasMatchAux_tail hm
          have hrec' := ih c cs m' _ hrec hm3
          have harith : m = m' + 1 := by omega
          rw [harith, List.drop_succ_cons]
          exact hrec'
      · rw [if_neg he] at h
        cases h

/-- Weakening the scanning context: if the boundary seen by `r1` implies the
one seen by `r2` at the head, a no-match for `r2` is a no-match for `r1`. -/
theorem hasMatch_mono {q : Pat} {r1 r2 : Option Char} {l : List Char}
    (hb : ∀ d ds, l = d :: ds → bnd r1 d = true → bnd r2 d = true)
    (h : hasMatchAux q r2 l = false) : hasMatchAux q r1 l = false := by
  cases l with
  | nil => rfl
  | cons d ds =>
    have h2 := hasMatchAux_tail h
    have h1 := hasMatchAux_head h
    unfold hasMatchAux
    rw [h2]
    cases hmres : matchAt q r1 (d :: ds) with
    | none => simp
    | some x =>
      have hb1 := matchAt_bnd hmres
      have hb2 := hb d ds rfl hb1
      have hcongr := @matchAt_congr q r1 r2 d ds (by rw [hb1, hb2])
      rw [hcongr, h1] at hmres
      cases hmres

/-- Scanning over an inserted asterisk run: no match can start on an
asterisk, so the scan resumes after it with `'*'` as context. -/
theorem hasMatch_stars {q : Pat} (hq : goodPat q = true) :
    ∀ (m : Nat), 1 ≤ m → ∀ (r : Option Char) (rest : List Char),
    hasMatchAux q r (List.replicate m '*' ++ rest) = hasMatchAux q (some '*') rest := by
  intro m
  induction m with
  | zero =>
    intro h
    omega
  | succ m2 ih =>
    intro _ r rest
    rw [List.replicate_succ, List.cons_append]
    rw [hasMatchAux]
    rw [matchAt_star hq]
    simp only [Option.isSome_none, Bool.false_or]
    cases m2 with
    | zero => simp
    | succ m3 => exact ih (by omega) _ _

/-- The final `\b` of a successful match, stated on `matchAt`. -/
theorem matchAt_endBnd {p : Pat} {r : Option Char} {c : Char} {cs : List Char}
    {n : Nat} {last : Char} (hm : matchAt p r (c :: cs) = some (n, last)) :
    endBnd last (List.drop (n - 1) cs) = true := by
  cases hw : p.word with
  | nil =>
    unfold matchAt at hm
    rw [hw] at hm
    simp at hm
  | cons b bs =>
    obtain ⟨m, last', hcons, hx⟩ := matchAt_consume hm hw
    injection hx with hn hl
    subst hl
    have hend := consumeRest_endBnd p.kind bs c cs m _ hcons
    have h2 : n - 1 = m := by omega
    rw [h2]
    exact hend

/-- A fresh scan that found nothing before a match's span finds nothing
after it either. -/
theorem matchAt_after {q p : Pat} {r : Option Char} {c : Char} {cs : List Char}
    {n : Nat} {last : Char} (hm : matchAt p r (c :: cs) = some (n, last))
    (h2 : hasMatchAux q (some c) cs = false) :
    hasMatchAux q (some last) (List.drop (n - 1) cs) = false := by
  cases hw : p.word with
  | nil =>
    unfold matchAt at hm
    rw [hw] at hm
    simp at hm
  | cons b bs =>
    obtain ⟨m, last', hcons, hx⟩ := matchAt_consume hm hw
    injection hx with hn hl
    subst hl
    have h3 := consumeRest_after q p.kind bs c cs m _ hcons h2
    have h4 : n - 1 = m := by omega
    rw [h4]
    exact h3

theorem rgAuxF_cons_match {fuel : Nat} {p : Pat} {prev : Option Char} {c : Char}
    {cs : List Char} {r : Nat × Char} (h : matchAt p prev (c :: cs) = some r) :
    rgAuxF (fuel + 1) p prev (c :: cs) =
      starsFor p ++ rgAuxF fuel p (some r.2) (List.drop (r.1 - 1) cs) := by
  simp only [rgAuxF, h]

theorem rgAuxF_cons_nomatch {fuel : Nat} {p : Pat} {prev : Option Char} {c : Char}
    {cs : List Char} (h : matchAt p prev (c :: cs) = none) :
    rgAuxF (fuel + 1) p prev (c :: cs) = c :: rgAuxF fuel p (some c) cs := by
  simp only [rgAuxF, h]

theorem spanSpaces_length (s : List Char) :
    (spanSpaces s).1 + (spanSpaces s).2.length = s.length := by
  induction s with
  | nil => rfl
  | cons c cs ih =>
    by_cases hc : isSpaceChar c = true
    · rw [spanSpaces_cons_space cs hc]
      dsimp only
      simp only [List.length_cons]
      omega
    · rw [spanSpaces_cons_nospace cs (by simpa using hc)]
      simp

theorem spanSpaces_eq_zero {l : List Char}
    (h : ∀ d ds, l = d :: ds → isSpaceChar d = false) : spanSpaces l = (0, l) := by
  cases l with
  | nil => rfl
  | cons d ds => exact spanSpaces_cons_nospace ds (h d ds rfl)

theorem starsFor_cons {p : Pat} {b : Char} {bs : List Char} (hw : p.word = b :: bs) :
    starsFor p = '*' :: List.replicate bs.length '*' := by
  unfold starsFor
  rw [hw]
  rfl

/-- Global replace commutes with skipping a leading whitespace run: the
replace never touches whitespace (pattern letters are not whitespace), so
the output's leading run is the input's. -/
theorem spanSpaces_rgAuxF {p : Pat} (hp : goodPat p = true) :
    ∀ (fuel : Nat) (s : List Char) (prev : Option Char), s.length ≤ fuel →
    spanSpaces (rgAuxF fuel p prev s) =
      ((spanSpaces s).1,
        rgAuxF (fuel - (spanSpaces s).1) p (spacesPrev prev s) (spanSpaces s).2) := by
  intro fuel
  induction fuel with
  | zero =>
    intro s prev hf
    have hnil : s = [] := List.length_eq_zero.mp (Nat.le_zero.mp hf)
    subst hnil
    rfl
  | succ f ih =>
    intro s prev hf
    cases s with
    | nil =>
      rfl
    | cons c cs =>
      by_cases hc : isSpaceChar c = true
      · have hnm : matchAt p prev (c :: cs) = none := matchAt_space hp hc prev cs
        rw [rgAuxF_cons_nomatch hnm, spanSpaces_cons_space _ hc,
          ih cs (some c) (by simpa using hf), spanSpaces_cons_space _ hc]
        dsimp only
        rw [show spacesPrev prev (c :: cs) = spacesPrev (some c) cs from by
          simp only [spacesPrev]
          rw [if_pos hc], Nat.succ_sub_succ]
      · have hspz : spanSpaces (c :: cs) = (0, c :: cs) :=
          spanSpaces_cons_nospace cs (by simpa using hc)
        rw [hspz]
        dsimp only
        rw [show spacesPrev prev (c :: cs) = prev from by
          simp only [spacesPrev]
          rw [if_neg hc]]
        rw [Nat.sub_zero]
        cases hm : matchAt p prev (c :: cs) with
        | some r =>
          rw [rgAuxF_cons_match hm]
          apply spanSpaces_eq_zero
          intro d ds hEq
          obtain ⟨pb, pbs, hpw, _, _⟩ := good_head hp
          rw [starsFor_cons hpw, List.cons_append] at hEq
          have hd : d = '*' := (List.cons.injEq .. ▸ hEq).1.symm
          subst hd
          decide
        | none =>
          rw [rgAuxF_cons_nomatch hm]
          exact spanSpaces_cons_nospace _ (by simpa using hc)

/-- Transfer of a successful consumption from the replace output back to the
original text: wherever the output was produced without replacement it
equals the input, and a consumption cannot cross an inserted asterisk run,
so it ends at the frontier where the pattern's own boundary condition held
in the input too. -/
theorem consumeRest_transfer (k : PatKind) (p : Pat) (hp : goodPat p = true) :
    ∀ (bs : List Char), (∀ x ∈ bs, isLowerAscii x = true) →
    ∀ (fuel : Nat) (s : List Char) (lastc : Char) (m : Nat) (last : Char),
    s.length ≤ fuel →
    consumeRest k bs lastc (rgAuxF fuel p (some lastc) s) = some (m, last) →
    ∃ y, consumeRest k bs lastc s = some y := by
  intro bs
  induction bs with
  | nil =>
    intro _ fuel s lastc m last hf h
    unfold consumeRest at h ⊢
    by_cases he : endBnd lastc (rgAuxF fuel p (some lastc) s) = true
    · have hs : endBnd lastc s = true := by
        cases s with
        | nil =>
          rw [rgAuxF_nil] at he
          exact he
        | cons d ds =>
          cases fuel with
          | zero => simp at hf
          | succ f =>
            cases hm : matchAt p (some lastc) (d :: ds) with
            | some r => exact matchAt_bnd hm
            | none =>
              rw [rgAuxF_cons_nomatch hm] at he
              exact he
      rw [if_pos hs]
      exact ⟨_, rfl⟩
    · rw [if_neg he] at h
      cases h
  | cons b bs' ih =>
    intro hlow fuel s lastc m last hf h
    have hb_low : isLowerAscii b = true := hlow b (List.mem_cons_self _ _)
    have hbs_low : ∀ x ∈ bs', isLowerAscii x = true :=
      fun x hx => hlow x (List.mem_cons_of_mem _ hx)
    unfold consumeRest at h
    dsimp only at h
    by_cases hk : k = PatKind.spaced
    · subst hk
      rw [if_pos rfl] at h
      rw [spanSpaces_rgAuxF hp fuel s (some lastc) hf] at h
      dsimp only at h
      cases hs2 : (spanSpaces s).2 with
      | nil =>
        rw [hs2, rgAuxF_nil] at h
        cases h
      | cons d ds =>
        rw [hs2] at h
        have hlen := spanSpaces_length s
        rw [hs2] at hlen
        simp only [List.length_cons] at hlen
        cases hf2 : fuel - (spanSpaces s).1 with
        | zero => omega
        | succ f2 =>
          rw [hf2] at h
          cases hm2 : matchAt p (spacesPrev (some lastc) s) (d :: ds) with
          | some r =>
            rw [rgAuxF_cons_match hm2] at h
            obtain ⟨pb, pbs, hpw, _, _⟩ := good_head hp
            rw [starsFor_cons hpw, List.cons_append] at h
            dsimp only at h
            rw [star_not_elem _ b hb_low] at h
            simp at h
          | none =>
            rw [rgAuxF_cons_nomatch hm2] at h
            dsimp only at h
            by_cases he : elemMatch PatKind.spaced b d = true
            · rw [if_pos he] at h
              obtain ⟨⟨m2, last2⟩, hrec, _⟩ := Option.map_eq_some'.mp h
              have hds : ds.length ≤ f2 := by omega
              obtain ⟨y, hy⟩ := ih hbs_low f2 ds d m2 last2 hds hrec
              have hgoal : consumeRest PatKind.spaced (b :: bs') lastc s =
                  some ((spanSpaces s).1 + 1 + y.1, y.2) := by
                unfold consumeRest
                dsimp only
                rw [if_pos rfl, hs2]
                dsimp only
                rw [if_pos he, hy]
                rfl
              exact ⟨_, hgoal⟩
            · rw [if_neg he] at h
              cases h
    · rw [if_neg hk] at h
      dsimp only at h
      cases s with
      | nil =>
        rw [rgAuxF_nil] at h
        cases h
      | cons d ds =>
        cases fuel with
        | zero => simp at hf
        | succ f =>
          cases hm2 : matchAt p (some lastc) (d :: ds) with
          | some r =>
            rw [rgAuxF_cons_match hm2] at h
            obtain ⟨pb, pbs, hpw, _, _⟩ := good_head hp
            rw [starsFor_cons hpw, List.cons_append] at h
            dsimp only at h
            rw [star_not_elem _ b hb_low] at h
            simp at h
          | none =>
            rw [rgAuxF_cons_nomatch hm2] at h
            dsimp only at h
            by_cases he : elemMatch k b d = true
            · rw [if_pos he] at h
              obtain ⟨⟨m2, last2⟩, hrec, _⟩ := Option.map_eq_some'.mp h
              obtain ⟨y, hy⟩ := ih hbs_low f ds d m2 last2 (by simpa using hf) hrec
              have hgoal : consumeRest k (b :: bs') lastc (d :: ds) =
                  some (0 + 1 + y.1, y.2) := by
                unfold consumeRest
                dsimp only
                rw [if_neg hk]
                dsimp only
                rw [if_pos he, hy]
                rfl
              exact ⟨_, hgoal⟩
            · rw [if_neg he] at h
              cases h

/-- Transfer of a whole match attempt from the replace output back to the
original text (same position, same scanning context). -/
theorem matchAt_transfer {q p : Pat} (hp : goodPat p = true) (hq : goodPat q = true)
    {fuel : Nat} {c : Char} {cs : List Char} {r : Option Char} {x : Nat × Char}
    (hf : cs.length ≤ fuel)
    (h : matchAt q r (c :: rgAuxF fuel p (some c) cs) = some x) :
    ∃ y, matchAt q r (c :: cs) = some y := by
  obtain ⟨b, bs, hw, hb_low, hbs_low⟩ := good_head hq
  unfold matchAt at h ⊢
  rw [hw] at h ⊢
  dsimp only at h ⊢
  cases hcond : (bnd r c && elemMatch q.kind b c) with
  | false =>
    simp at h
    rw [h.1.1, h.1.2] at hcond
    simp at hcond
  | true =>
    rw [hcond, if_pos rfl] at h
    obtain ⟨⟨m2, last2⟩, hrec, _⟩ := Option.map_eq_some'.mp h
    obtain ⟨y, hy⟩ := consumeRest_transfer q.kind p hp bs hbs_low fuel cs c m2 last2 hf hrec
    rw [if_pos rfl, hy]
    exact ⟨_, rfl⟩

/-- The output of a global replace contains no match of the replaced
pattern itself. -/
theorem rgAuxF_self_nomatch {p : Pat} (hp : goodPat p = true) :
    ∀ (fuel : Nat) (s : List Char) (rq rs : Option Char), s.length ≤ fuel →
    BndOk rq rs s →
    hasMatchAux p rq (rgAuxF fuel p rs s) = false := by
  intro fuel
  induction fuel with
  | zero =>
    intro s rq rs hf _
    have hnil : s = [] := List.length_eq_zero.mp (Nat.le_zero.mp hf)
    subst hnil
    rfl
  | succ f ih =>
    intro s rq rs hf hbo
    cases s with
    | nil => rfl
    | cons c cs =>
      cases hm : matchAt p rs (c :: cs) with
      | some r =>
        obtain ⟨n, lst⟩ := r
        rw [rgAuxF_cons_match hm]
        simp only [starsFor]
        rw [hasMatch_stars hp p.word.length
          (by obtain ⟨b, bs, hw, _, _⟩ := good_head hp; rw [hw]; simp) rq _]
        apply ih
        · simp only [List.length_drop]
          have : cs.length ≤ f := by simpa using hf
          omega
        · right
          intro d ds hEq _
          have hend := matchAt_endBnd hm
          rw [hEq] at hend
          exact hend
      | none =>
        rw [rgAuxF_cons_nomatch hm]
        rw [hasMatchAux]
        have htail : hasMatchAux p (some c) (rgAuxF f p (some c) cs) = false :=
          ih cs (some c) (some c) (by simpa using hf) (Or.inl rfl)
        rw [htail]
        cases hm2 : matchAt p rq (c :: rgAuxF f p (some c) cs) with
        | none => simp
        | some x =>
          exfalso
          obtain ⟨y, hy⟩ := matchAt_transfer hp hp (by simpa using hf) hm2
          have hb1 := matchAt_bnd hy
          rcases hbo with heq | himp
          · subst heq
            rw [hm] at hy
            cases hy
          · have hb2 := himp c cs rfl hb1
            have hcg := @matchAt_congr p rq rs c cs (by rw [hb1, hb2])
            rw [hcg, hm] at hy
            cases hy

/-- A global replace of one pattern creates no new match of any other
(well-formed) pattern. -/
theorem rgAuxF_preserves_nomatch {p q : Pat} (hp : goodPat p = true)
    (hq : goodPat q = true) :
    ∀ (fuel : Nat) (s : List Char) (rq rs : Option Char), s.length ≤ fuel →
    BndOk rq rs s →
    hasMatchAux q rq s = false →
    hasMatchAux q rq (rgAuxF fuel p rs s) = false := by
  intro fuel
  induction fuel with
  | zero =>
    intro s rq rs hf _ h
    have hnil : s = [] := List.length_eq_zero.mp (Nat.le_zero.mp hf)
    subst hnil
    exact h
  | succ f ih =>
    intro s rq rs hf hbo h
    cases s with
    | nil => rfl
    | cons c cs =>
      cases hm : matchAt p rs (c :: cs) with
      | some r =>
        obtain ⟨n, lst⟩ := r
        rw [rgAuxF_cons_match hm]
        simp only [starsFor]
        rw [hasMatch_stars hq p.word.length
          (by obtain ⟨b, bs, hw, _, _⟩ := good_head hp; rw [hw]; simp) rq _]
        apply ih
        · simp only [List.length_drop]
          have : cs.length ≤ f := by simpa using hf
          omega
        · right
          intro d ds hEq _
          have hend := matchAt_endBnd hm
          rw [hEq] at hend
          exact hend
        · apply hasMatch_mono ?_ (matchAt_after hm (hasMatchAux_tail h))
          intro d ds hEq _
          have hend := matchAt_endBnd hm
          rw [hEq] at hend
          exact hend
      | none =>
        rw [rgAuxF_cons_nomatch hm]
        rw [hasMatchAux]
        have htail : hasMatchAux q (some c) (rgAuxF f p (some c) cs) = false :=
          ih cs (some c) (some c) (by simpa using hf) (Or.inl rfl) (hasMatchAux_tail h)
        rw [htail]
        cases hm2 : matchAt q rq (c :: rgAuxF f p (some c) cs) with
        | none => simp
        | some x =>
          exfalso
          obtain ⟨y, hy⟩ := matchAt_transfer hp hq (by simpa using hf) hm2
          rw [hasMatchAux_head h] at hy
          cases hy

/-- A replace with nothing to replace is the identity. -/
theorem rgAuxF_id {p : Pat} :
    ∀ (fuel : Nat) (s : List Char) (prev : Option Char), s.length ≤ fuel →
    hasMatchAux p prev s = false → rgAuxF fuel p prev s = s := by
  intro fuel
  induction fuel with
  | zero =>
    intro s prev hf _
    have hnil : s = [] := List.length_eq_zero.mp (Nat.le_zero.mp hf)
    subst hnil
    rfl
  | succ f ih =>
    intro s prev hf h
    cases s with
    | nil => rfl
    | cons c cs =>
      rw [rgAuxF_cons_nomatch (hasMatchAux_head h)]
      rw [ih cs (some c) (by simpa using hf) (hasMatchAux_tail h)]

/-! ## Filter lemmas: the pattern pipeline -/

theorem runPats_preserves {q : Pat} (hq : goodPat q = true) :
    ∀ (ps : List Pat), (∀ p ∈ ps, goodPat p = true) → ∀ s : List Char,
    hasMatchAux q none s = false → hasMatchAux q none (runPats ps s) = false := by
  intro ps
  induction ps with
  | nil =>
    intro _ s h
    exact h
  | cons p rest ih =>
    intro hgood s h
    show hasMatchAux q none (runPats rest (rg p s)) = false
    apply ih (fun x hx => hgood x (List.mem_cons_of_mem _ hx))
    exact rgAuxF_preserves_nomatch (hgood p (List.mem_cons_self _ _)) hq
      s.length s none none (le_refl _) (Or.inl rfl) h

theorem runPats_kills :
    ∀ (ps : List Pat), (∀ p ∈ ps, goodPat p = true) → ∀ s : List Char, ∀ q ∈ ps,
    hasMatchAux q none (runPats ps s) = false := by
  intro ps
  induction ps with
  | nil =>
    intro _ s q hq
    cases hq
  | cons p rest ih =>
    intro hgood s q hq
    rcases List.mem_cons.mp hq with rfl | hq'
    · show hasMatchAux q none (runPats rest (rg q s)) = false
      apply runPats_preserves (hgood q (List.mem_cons_self _ _)) rest
        (fun x hx => hgood x (List.mem_cons_of_mem _ hx))
      exact rgAuxF_self_nomatch (hgood q (List.mem_cons_self _ _))
        s.length s none none (le_refl _) (Or.inl rfl)
    · show hasMatchAux q none (runPats rest (rg p s)) = false
      exact ih (fun x hx => hgood x (List.mem_cons_of_mem _ hx)) (rg p s) q hq'

theorem runPats_id :
    ∀ (ps : List Pat) (s : List Char), (∀ q ∈ ps, hasMatchAux q none s = false) →
    runPats ps s = s := by
  intro ps
  induction ps with
  | nil =>
    intro s _
    rfl
  | cons p rest ih =>
    intro s h
    show runPats rest (rg p s) = s
    rw [show rg p s = s from
      rgAuxF_id s.length s none (le_refl _) (h p (List.mem_cons_self _ _))]
    exact ih s (fun q hq => h q (List.mem_cons_of_mem _ hq))

/-- All dictionary patterns (leet and spaced) are well-formed. -/
theorem allPats_good : ∀ p ∈ mainPats ++ spacedPats, goodPat p = true := by
  decide

theorem filterMessage_eq_runPats (s : List Char) :
    filterMessage s = runPats (mainPats ++ spacedPats) s := by
  unfold filterMessage handleBypassAttempts runPats
  rw [List.foldl_append]

/-! ## Claim theorems: filter scenarios and guards -/

/-- C6: the filter is idempotent — for every input string, running
`filterMessage` twice yields the same result as running it once.  After one
pass no dictionary pattern (leet-speak or spaced form) matches anywhere in the
output, so the second pass replaces nothing. -/
theorem c6_filter_idempotent (s : List Char) :
    filterMessage (filterMessage s) = filterMessage s := by
  rw [filterMessage_eq_runPats s, filterMessage_eq_runPats]
  exact runPats_id _ _ (runPats_kills _ allPats_good s)

/-- C7: `"f u c k you"` comes out of the filter pipeline with the spaced
profanity span replaced by four asterisks (the matched dictionary word's
length), with `"you"` and the surrounding space untouched. -/
theorem c7_spaced_profanity_scenario :
    filterMessage ("f u c k you").toList = ("**** you").toList := by
  decide

/-- C10: a value that is not a non-empty string (null, undefined, empty
string, number, boolean) passes through `filterMessage` unchanged, and
`containsProfanity` returns `false` on it without touching the filter
state.  Both functions are total on such inputs (no exception). -/
theorem c10_nonstring_passthrough (v : JsVal) (h : isNonEmptyString v = false) :
    filterMessageJ v = v ∧ ∀ st, containsProfanityS st v = (false, st) := by
  cases v with
  | str s =>
    have hs : s.isEmpty = true := by
      simpa [isNonEmptyString] using h
    refine ⟨?_, fun st => ?_⟩
    · unfold filterMessageJ
      dsimp only
      rw [if_pos hs]
    · unfold containsProfanityS
      dsimp only
      rw [if_pos hs]
  | nullV => exact ⟨rfl, fun st => rfl⟩
  | undefV => exact ⟨rfl, fun st => rfl⟩
  | numV n => exact ⟨rfl, fun st => rfl⟩
  | boolV b => exact ⟨rfl, fun st => rfl⟩

theorem c10_nonstring_passthrough_witness :
    filterMessageJ .nullV = .nullV ∧
    ∀ st, containsProfanityS st .nullV = (false, st) :=
  c10_nonstring_passthrough .nullV (by decide)

/-- C3 (code bug): `containsProfanity` is not stateless.  Its `g`-flag
regexes keep their `lastIndex` across calls, so on a fresh filter the first
`containsProfanity("fuck")` returns `true` but the immediately repeated
identical call returns `false`. -/
theorem c3_stateful_evaluation :
    isNonEmptyString (.str ("fuck").toList) = true ∧
    (containsProfanityS initFilterState (.str ("fuck").toList)).1 = true ∧
    (containsProfanityS (containsProfanityS initFilterState (.str ("fuck").toList)).2
      (.str ("fuck").toList)).1 = false := by
  decide

end RandomChat
